import Mathlib

/-!
Verification development for the Crowddata HMG data-processing scripts
(`Extract_Processing/data_processing_1128.py`,
`Extract_Processing_Merge/data_processing_1212_merged.py`,
`Extract_Processing/csv_with_source_data.py`,
`Extract_Processing_Merge/csv_with_gcs_source_data.py`).

Modelling conventions:
* Python strings are `String` / `List Char`; numeric JSON payloads are
  exact rationals `ℚ` (IEEE-754 artefacts such as signed zero are outside
  the model).
* The Python word class `\w` is modelled by ASCII letters, digits, `_`
  and the Hangul syllable block, the scripts that occur in this
  pipeline's data; Python whitespace is modelled by the six ASCII
  whitespace characters.
* Fallible Python code (bare `except`) is modelled with `Option`.
* A dictionary field read with `.get(key, default)` followed by a
  truthiness test is modelled with `Option`, where `none` stands for
  "key absent, or value falsy (empty dict / empty list)".
-/

namespace CrowdHMG

/-- Hangul syllable block `가`–`힣` (U+AC00 – U+D7A3), the regex class
`가-힣` used in `clean_filename`. -/
def isHangulSyllable (c : Char) : Bool :=
  0xAC00 ≤ c.toNat && c.toNat ≤ 0xD7A3

/-- The regex class `\w` as it applies to this repository's data:
ASCII letters and digits, underscore, and Hangul syllables. -/
def isWordChar (c : Char) : Bool :=
  c.isAlphanum || c = '_' || isHangulSyllable c

/-- Python whitespace (`str.strip` / regex `\s`), ASCII part:
space, tab, newline, carriage return, vertical tab, form feed. -/
def isPySpace (c : Char) : Bool :=
  c = ' ' || c = '\t' || c = '\n' || c = '\r' || c.toNat = 11 || c.toNat = 12

/-- Embedding of `text_value.replace(' ', '')` (both conversion
variants): replacing every occurrence of the one-character substring
`" "` by the empty string deletes exactly the `U+0020` characters. -/
def removeSpaces (s : String) : String :=
  ⟨s.data.filter (fun c => c ≠ ' ')⟩

/-- One pass of Python `str.replace` for a single-character pattern
`t`, replacing it by the string `r`. -/
def replaceChar (t : Char) (r : List Char) : List Char → List Char
  | [] => []
  | c :: cs => (if c = t then r else [c]) ++ replaceChar t r cs

/-- The apostrophe character, `U+0027`. -/
def aposChar : Char := Char.ofNat 39

/-- Embedding of `escape_xml_text`: a falsy (empty) input yields `""`;
otherwise five successive single-character `str.replace` passes, in the
source's order `&`, `<`, `>`, `"`, `U+0027`. -/
def escape_xml_text (s : String) : String :=
  if s = "" then "" else
  ⟨replaceChar aposChar "&apos;".data
    (replaceChar '"' "&quot;".data
      (replaceChar '>' "&gt;".data
        (replaceChar '<' "&lt;".data
          (replaceChar '&' "&amp;".data s.data))))⟩

/-- Split a character list at its first `'>'`:
`splitAtGt l = some (d, rest)` iff `l = d ++ '>' :: rest` with `'>' ∉ d`. -/
def splitAtGt : List Char → Option (List Char × List Char)
  | [] => none
  | c :: cs =>
    if c = '>' then some ([], cs)
    else (splitAtGt cs).map (fun p => (c :: p.1, p.2))

/-- Guard for a match of `<(\w+)([^>]*?)/>` whose bracketed content
(between `<` and the first following `>`) is `d`: at least two
characters, ending in `/`, starting with a word character.  Since both
`\w` and `[^>]` exclude `>`, a match reaching a given `<` always
consumes up to the first `>` after it, and succeeds exactly under this
guard. -/
def matchGuard (d : List Char) : Bool :=
  match d with
  | c :: _ :: _ => isWordChar c && decide (d.getLast? = some '/')
  | _ => false

/-- Fuel-indexed scanner for
`re.sub(r'<(\w+)([^>]*?)/>', r'<\1\2></\1>', s)`.  The engine tries a
match at every position; a match can only start at `<`, consumes
through the first subsequent `>`, and on success scanning resumes after
the match; on failure scanning resumes at the next character.  Group 1
is the maximal word-character prefix of the bracketed content.  Fuel
`s.length` is always sufficient (each step consumes at least one
character). -/
def feAux : Nat → List Char → List Char
  | 0, l => l
  | _ + 1, [] => []
  | fuel + 1, c :: cs =>
    if c = '<' then
      match splitAtGt cs with
      | some (d, rest) =>
        if matchGuard d then
          '<' :: d.dropLast ++ '>' :: '<' :: '/' :: d.dropLast.takeWhile isWordChar ++ '>' :: feAux fuel rest
        else '<' :: feAux fuel cs
      | none => '<' :: feAux fuel cs
    else c :: feAux fuel cs

/-- Embedding of `fix_empty_tags` (identical in both variants). -/
def fix_empty_tags (s : String) : String :=
  ⟨feAux s.data.length s.data⟩

/-- Embedding of Python `s.split('\n')`: first line plus the remaining
lines. -/
def splitNl : List Char → List Char × List (List Char)
  | [] => ([], [])
  | c :: cs =>
    let p := splitNl cs
    if c = '\n' then ([], p.1 :: p.2) else (c :: p.1, p.2)

/-- Embedding of `'\n'.join(lines)`. -/
def joinLines : List (List Char) → List Char
  | [] => []
  | h :: t => h ++ (t.map (fun l => '\n' :: l)).flatten

/-- A line whose `strip()` is empty (`is_empty` in the source). -/
def isBlankLine (l : List Char) : Bool :=
  l.all isPySpace

/-- Embedding of Python `line.strip()` (ASCII whitespace). -/
def pyStrip (l : List Char) : List Char :=
  ((l.dropWhile isPySpace).reverse.dropWhile isPySpace).reverse

/-- The `prev_is_tag` test of `remove_empty_lines`, applied to a kept
line: its stripped form starts with `<?`, or starts with `<` but not
with `<!--`. -/
def prevIsTag (l : List Char) : Bool :=
  let p := pyStrip l
  ("<?".data.isPrefixOf p) || (("<".data.isPrefixOf p) && !("<!--".data.isPrefixOf p))

/-- One iteration of the `remove_empty_lines` loop for a line after the
first; `acc` holds the kept lines most recent first.  A blank line is
dropped when the previously kept line is blank, or is a tag line;
otherwise the line is kept. -/
def relStep (acc : List (List Char)) (line : List Char) : List (List Char) :=
  if isBlankLine line then
    match acc with
    | [] => line :: acc
    | prev :: _ =>
      if isBlankLine prev then acc
      else if prevIsTag prev then acc
      else line :: acc
  else line :: acc

/-- Embedding of `remove_empty_lines` (identical in both variants): the
first line is always kept, later lines go through `relStep`. -/
def remove_empty_lines (s : String) : String :=
  ⟨joinLines (((splitNl s.data).2.foldl relStep [(splitNl s.data).1]).reverse)⟩

/-- The output-formatter stage applied to the pretty-printed XML:
`fix_empty_tags` followed by `remove_empty_lines`. -/
def formatPipeline (s : String) : String :=
  remove_empty_lines (fix_empty_tags s)

/-- The character class kept by `clean_filename`'s first substitution
`re.sub(r'[^\w가-힣.-]', '', ...)`. -/
def keepClean (c : Char) : Bool :=
  isWordChar c || isHangulSyllable c || c = '.' || c = '-'

/-- Membership in the class `[.-]`. -/
def isDotDash (c : Char) : Bool :=
  c = '.' || c = '-'

/-- Fuel-indexed scanner for `re.sub(r'[.-]+', '.', s)`: each maximal
run of dots and hyphens becomes a single dot.  Fuel `s.length`
suffices. -/
def collapseRuns : Nat → List Char → List Char
  | 0, l => l
  | _ + 1, [] => []
  | fuel + 1, c :: cs =>
    if isDotDash c then '.' :: collapseRuns fuel (cs.dropWhile isDotDash)
    else c :: collapseRuns fuel cs

/-- Embedding of `clean_filename` (identical in
`csv_with_source_data.py` and `csv_with_gcs_source_data.py`): a falsy
input is returned as is; otherwise drop characters outside
`[\w가-힣.-]`, collapse `[.-]+` runs to `.`, and append `.jpg` when no
dot is left. -/
def clean_filename (s : String) : String :=
  if s = "" then s else
  let step1 := s.data.filter keepClean
  let step2 := collapseRuns step1.length step1
  if '.' ∈ step2 then ⟨step2⟩ else ⟨step2 ++ ".jpg".data⟩

/-- Collapse of dot/hyphen runs stated the way the spec words it,
structured independently of the fuel-indexed scanner: rewrite each dot
or hyphen to a dot, merging it into an immediately following collapsed
dot. -/
def collapseDotsSpec : List Char → List Char
  | [] => []
  | c :: cs =>
    let r := collapseDotsSpec cs
    if isDotDash c then (if r.head? = some '.' then r else '.' :: r)
    else c :: r

/-- The filename cleaner as the spec words it: remove every character
that is not a word character, a Hangul syllable, a dot or a hyphen;
replace every maximal run of dots and hyphens by a single dot; append
`.jpg` exactly when no dot remains. -/
def cleanFilenameSpec (s : String) : String :=
  let collapsed := collapseDotsSpec (s.data.filter keepClean)
  if '.' ∈ collapsed then ⟨collapsed⟩ else ⟨collapsed ++ ".jpg".data⟩

/-! Numeric rendering: Python `f"{round(v, 4):.4f}"` over exact
rationals, with round-half-to-even. -/

/-- Round-half-to-even of `q * 10000` (Python `round(q, 4)` scaled to
an integer), computed by integer arithmetic on the reduced numerator
and denominator: `f` is the floor of `q * 10000` and `r2` compares the
remainder against one half. -/
def rhe4 (q : ℚ) : ℤ :=
  let n := q.num * 10000
  let d := (q.den : ℤ)
  let f := Int.fdiv n d
  let r2 := 2 * (n - f * d)
  if r2 < d then f
  else if d < r2 then f + 1
  else if f % 2 = 0 then f else f + 1

/-- Python `round(q, 4)` over exact rationals. -/
def round4 (q : ℚ) : ℚ :=
  (rhe4 q : ℚ) / 10000

/-- The four decimal digits of `n % 10000`, zero padded. -/
def pad4frac (n : Nat) : List Char :=
  [Nat.digitChar (n / 1000 % 10), Nat.digitChar (n / 100 % 10),
   Nat.digitChar (n / 10 % 10), Nat.digitChar (n % 10)]

/-- Embedding of `format(x, '.4f')` for `x = n · 10⁻⁴`: sign, integer
part, dot, exactly four fractional digits. -/
def fmtFixed4 (n : ℤ) : String :=
  ⟨(if n < 0 then ['-'] else []) ++ (Nat.repr (n.natAbs / 10000)).data
      ++ '.' :: pad4frac (n.natAbs % 10000)⟩

/-- Embedding of the coordinate rendering `f"{round(v, 4):.4f}"`: for
an exact rational the composition of `round(v, 4)` and `'.4f'`
formatting renders exactly the integer `rhe4 v` scaled by `10⁻⁴`
(`rhe4_round4` below proves the collapse). -/
def coordStr (v : ℚ) : String :=
  fmtFixed4 (rhe4 v)

/-- One `"x,y"` entry of a `points` list. -/
def pairStr (x y : ℚ) : String :=
  coordStr x ++ "," ++ coordStr y

/-! The annotation-record model shared by both conversion variants. -/

/-- A coordinate pair; `.get('x', 0)` defaults are folded in. -/
structure Pt where
  x : ℚ
  y : ℚ
deriving DecidableEq

/-- The `coords` dictionary of a BOX record.  A corner field is `some`
exactly when its key is present with a truthy (non-empty) dictionary
value. -/
structure Corners where
  tl : Option Pt
  tr : Option Pt
  br : Option Pt
  bl : Option Pt
deriving DecidableEq

/-- The `object` dictionary of a BOX record; `.get(..., 0)` defaults
are folded in. -/
structure BoxSpec where
  left : ℚ
  top : ℚ
  width : ℚ
  height : ℚ
deriving DecidableEq

/-- One record of an `annotation_list`.  `kind` is
`annotation.get('annotation', '')`; `coords` and `obj` are `some`
exactly when present and truthy; `pts` is `annotation.get('points', [])`;
`ocr` is `annotation.get('ocr', '')` (string payloads). -/
structure AnnRec where
  kind : String
  coords : Option Corners
  obj : Option BoxSpec
  pts : List Pt
  ocr : String
deriving DecidableEq

/-- The point list built for one record by either variant's record
loop: BOX via the four named corners when the `coords` dictionary is
truthy and all four corners are truthy, else via `object` when `coords`
is falsy and `object` is truthy with positive width and height;
POLYGONS via the `points` list in order; anything else (and every
failed BOX case) yields no points. -/
def recPoints (a : AnnRec) : List String :=
  if a.kind = "BOX" then
    match a.coords with
    | some c =>
      match c.tl, c.tr, c.br, c.bl with
      | some tl, some tr, some br, some bl =>
          [pairStr tl.x tl.y, pairStr tr.x tr.y, pairStr br.x br.y, pairStr bl.x bl.y]
      | _, _, _, _ => []
    | none =>
      match a.obj with
      | some o =>
          if 0 < o.width ∧ 0 < o.height then
            [pairStr o.left o.top, pairStr (o.left + o.width) o.top,
             pairStr (o.left + o.width) (o.top + o.height),
             pairStr o.left (o.top + o.height)]
          else []
      | none => []
  else if a.kind = "POLYGONS" then
    a.pts.map (fun p => pairStr p.x p.y)
  else []

/-- One emitted `polygon` element; `attrText = some t` means an
`attribute` child element with name `text` and text `t`. -/
structure Poly where
  label : String
  source : String
  occluded : String
  zOrder : String
  points : String
  attrText : Option String
deriving DecidableEq

/-- Label and attribute logic of `data_processing_1128.py`: all spaces
removed, label `empty` iff the result is the literal token `empty`, an
attribute child whenever it is not. -/
def mkPoly1128 (zo : Nat) (a : AnnRec) (ps : List String) : Poly :=
  let t := removeSpaces a.ocr
  { label := if t = "empty" then "empty" else "text"
    source := "file"
    occluded := "0"
    zOrder := toString zo
    points := String.intercalate ";" ps
    attrText := if t = "empty" then none else some (escape_xml_text t) }

/-- Label and attribute logic of `data_processing_1212_merged.py`:
label `text` iff the space-stripped value is truthy, strips to a truthy
value, and differs from `empty`; an attribute child iff the label is
`text`. -/
def mkPolyMerged (zo : Nat) (a : AnnRec) (ps : List String) : Poly :=
  let t := removeSpaces a.ocr
  let isText := t ≠ "" ∧ ¬ isBlankLine t.data ∧ t ≠ "empty"
  { label := if isText then "text" else "empty"
    source := "file"
    occluded := "0"
    zOrder := toString zo
    points := String.intercalate ";" ps
    attrText := if isText then some (escape_xml_text t) else none }

/-- The record loop: records with an empty point list are dropped
silently, `z_order` counts only emitted polygons. -/
def buildPolys (mk : Nat → AnnRec → List String → Poly) : Nat → List AnnRec → List Poly
  | _, [] => []
  | z, a :: rest =>
    let ps := recPoints a
    if ps = [] then buildPolys mk z rest
    else mk z a ps :: buildPolys mk (z + 1) rest

/-- The `convertedImageInfo` of one source image; `.get(..., 0)`
defaults folded in. -/
structure SrcInfo where
  width : ℤ
  height : ℤ
deriving DecidableEq

/-- A source JSON document: its `images` list. -/
structure SrcDoc where
  images : List SrcInfo
deriving DecidableEq

/-- The two coordinate keys an annotations dictionary may carry. -/
structure AnnDict where
  rrmp0x : Option (List AnnRec)
  ojyev : Option (List AnnRec)
deriving DecidableEq

/-- The first cell of a data row: `None`, a non-dictionary value, or a
dictionary (whose two relevant keys are optional). -/
inductive Cell where
  | null : Cell
  | notDict : Cell
  | dict : AnnDict → Cell
deriving DecidableEq

/-- A result JSON document: its `results` list of rows, each row a
list of cells. -/
structure ResultDoc where
  results : List (List Cell)
deriving DecidableEq

/-- The image `width`/`height` taken from
`images[0].get('convertedImageInfo', {})`, defaulting to `0`. -/
def imageSize (src : SrcDoc) : ℤ × ℤ :=
  match src.images.head? with
  | some info => (info.width, info.height)
  | none => (0, 0)

/-- One output `image` element. -/
structure ImageEl where
  id : String
  name : String
  width : String
  height : String
  polys : List Poly
deriving DecidableEq

/-- The `image` element before any polygon is added: `id` is
`str(image_id - 1)`, `name` is escaped, size from the source JSON. -/
def baseImage (imageId : Nat) (name : String) (src : SrcDoc) : ImageEl :=
  { id := toString (imageId - 1)
    name := escape_xml_text name
    width := toString (imageSize src).1
    height := toString (imageSize src).2
    polys := [] }

/-- The annotation list of a cell under a given coordinate key:
present only when the cell is a dictionary carrying the key. -/
def cellAnns (key : AnnDict → Option (List AnnRec)) : Cell → Option (List AnnRec)
  | Cell.dict d => key d
  | _ => none

/-- Embedding of `convert_result_json_to_xml` of
`data_processing_1128.py`: fewer than two `results` rows, an empty data
row, a `None` payload cell, a non-dictionary payload or a missing
`name_5OJYEV` key all yield the bare image element. -/
def convert_result_json_to_xml (res : ResultDoc) (imageId : Nat) (name : String)
    (src : SrcDoc) : ImageEl :=
  let base := baseImage imageId name src
  if res.results.length < 2 then base
  else
    match (res.results[1]?).bind List.head? with
    | none => base
    | some cell =>
      match cellAnns (fun d => d.ojyev) cell with
      | none => base
      | some anns => { base with polys := buildPolys mkPoly1128 0 anns }

/-- Embedding of `convert_result_json_to_xml` of
`data_processing_1212_merged.py`: difficulty `중` reads key
`name_RRMP0X`, any other difficulty reads `name_5OJYEV`; the data index
is 1 for both. -/
def convert_result_json_to_xml_merged (res : ResultDoc) (imageId : Nat) (name : String)
    (src : SrcDoc) (difficulty : String) : ImageEl :=
  let base := baseImage imageId name src
  let key : AnnDict → Option (List AnnRec) :=
    if difficulty = "중" then fun d => d.rrmp0x else fun d => d.ojyev
  if res.results.length ≤ 1 then base
  else
    match (res.results[1]?).bind List.head? with
    | none => base
    | some cell =>
      match cellAnns key cell with
      | none => base
      | some anns => { base with polys := buildPolys mkPolyMerged 0 anns }

/-! The row loops of `process_csv_to_xml`. -/

/-- One manifest row as the 1128 loop sees it: the extracted
`file_name` (empty means the row is skipped), and the two JSON loads
(`none` models a missing file, a failed load, or a falsy document). -/
structure CsvRow where
  file_name : String
  resultJson : Option ResultDoc
  sourceJson : Option SrcDoc
deriving DecidableEq

/-- One iteration of the 1128 row loop at dataframe index `idx`:
`some` element exactly when nothing is skipped; the element is built
with `image_id = idx + 1`. -/
def processRow1128 (idx : Nat) (r : CsvRow) : Option ImageEl :=
  if r.file_name = "" then none
  else
    match r.resultJson, r.sourceJson with
    | some res, some src => some (convert_result_json_to_xml res (idx + 1) r.file_name src)
    | _, _ => none

/-- The 1128 row loop from index `idx` on: appended image elements in
row order. -/
def process_rows : Nat → List CsvRow → List ImageEl
  | _, [] => []
  | idx, r :: rest =>
    match processRow1128 idx r with
    | some e => e :: process_rows (idx + 1) rest
    | none => process_rows (idx + 1) rest

/-- Whether a 1128 row is retained (not skipped). -/
def keptRow (r : CsvRow) : Bool :=
  r.file_name ≠ "" && r.resultJson.isSome && r.sourceJson.isSome

/-- Fuel-indexed scanner for Python `s.replace(pat, repl)` with a
non-empty pattern, left to right, non-overlapping.  Fuel `s.length`
suffices. -/
def replaceSub (pat repl : List Char) : Nat → List Char → List Char
  | 0, l => l
  | _ + 1, [] => []
  | fuel + 1, c :: cs =>
    if pat.isPrefixOf (c :: cs) then repl ++ replaceSub pat repl fuel ((c :: cs).drop pat.length)
    else c :: replaceSub pat repl fuel cs

/-- Embedding of Python `s.replace(pat, repl)` for non-empty `pat`. -/
def str_replace (s pat repl : String) : String :=
  ⟨replaceSub pat.data repl.data s.data.length s.data⟩

/-- One manifest row as the merged loop sees it: difficulty and
`data_idx` columns, extracted file name, whether a matching result file
was listed, whether the source file exists, and the two loads. -/
structure CsvRowM where
  difficulty : String
  data_idx : String
  file_name : String
  resultFound : Bool
  resultJson : Option ResultDoc
  sourceFound : Bool
  sourceJson : Option SrcDoc
deriving DecidableEq

/-- One iteration of the merged row loop: the optional emitted element,
the names appended to `missing_files`, and the `processed_count`
increment.  Checks run in source order: empty file name, unknown
difficulty, missing result file, missing source file, failed loads. -/
def processRowM (idx : Nat) (r : CsvRowM) : Option ImageEl × List String × Nat :=
  if r.file_name = "" then (none, [], 0)
  else if r.difficulty = "중" ∨ r.difficulty = "상" then
    if r.resultFound = false then (none, [r.data_idx ++ "_result_" ++ r.difficulty], 0)
    else if r.sourceFound = false then (none, [str_replace r.file_name ".jpg" ".json"], 0)
    else
      match r.resultJson, r.sourceJson with
      | some res, some src =>
          (some (convert_result_json_to_xml_merged res (idx + 1) r.file_name src r.difficulty), [], 1)
      | _, _ => (none, [], 0)
  else (none, [], 0)

/-- The merged row loop from index `idx` on: elements in row order,
accumulated `missing_files`, accumulated `processed_count`. -/
def process_rows_merged : Nat → List CsvRowM → List ImageEl × List String × Nat
  | _, [] => ([], [], 0)
  | idx, r :: rest =>
    let step := processRowM idx r
    let acc := process_rows_merged (idx + 1) rest
    (match step.1 with
     | some e => e :: acc.1
     | none => acc.1,
     step.2.1 ++ acc.2.1,
     step.2.2 + acc.2.2)

/-! The datetime model for `add_timezone_to_datetime`. -/

/-- A naive datetime, field for field. -/
structure DT where
  year : Nat
  month : Nat
  day : Nat
  hour : Nat
  minute : Nat
  second : Nat
deriving DecidableEq

/-- Gregorian leap year. -/
def isLeapYear (y : Nat) : Bool :=
  (y % 4 = 0 && y % 100 ≠ 0) || y % 400 = 0

/-- Length of month `m` of year `y`. -/
def daysInMonth (y m : Nat) : Nat :=
  if m = 2 then (if isLeapYear y then 29 else 28)
  else if m = 4 ∨ m = 6 ∨ m = 9 ∨ m = 11 then 30
  else 31

/-- The constraints `datetime` enforces on parsed fields (the regex
already bounds month, day, hour and minute). -/
def validDT (dt : DT) : Prop :=
  1 ≤ dt.year ∧ 1 ≤ dt.month ∧ dt.month ≤ 12 ∧ 1 ≤ dt.day ∧
    dt.day ≤ daysInMonth dt.year dt.month ∧
    dt.hour ≤ 23 ∧ dt.minute ≤ 59 ∧ dt.second ≤ 59

instance (dt : DT) : Decidable (validDT dt) := by
  unfold validDT; infer_instance

/-- Numeric value of a digit run. -/
def digitsVal (ds : List Char) : Nat :=
  ds.foldl (fun a c => a * 10 + (c.toNat - 48)) 0

/-- A one-or-two digit `strptime` field: the maximal digit run must
have length 1 or 2 and value in `[lo, hi]` (the ordered regex
alternations for `%m`, `%d`, `%H`, `%M`, `%S` amount to exactly this,
given that the following literal is a non-digit). -/
def parseField2 (lo hi : Nat) (l : List Char) : Option (Nat × List Char) :=
  let p := l.span Char.isDigit
  if p.1.length = 1 ∨ p.1.length = 2 then
    let v := digitsVal p.1
    if lo ≤ v ∧ v ≤ hi then some (v, p.2) else none
  else none

/-- The `%Y` field: a maximal run of exactly four digits. -/
def parseYear4 (l : List Char) : Option (Nat × List Char) :=
  let p := l.span Char.isDigit
  if p.1.length = 4 then some (digitsVal p.1, p.2) else none

/-- A literal separator character. -/
def expectChar (c : Char) : List Char → Option (List Char)
  | x :: xs => if x = c then some xs else none
  | [] => none

/-- The `T` separator; `strptime` compiles its format with
`re.IGNORECASE`, so a lowercase `t` is also accepted. -/
def sepT : List Char → Option (List Char)
  | x :: xs => if x = 'T' ∨ x = 't' then some xs else none
  | [] => none

/-- The space separator; `strptime` rewrites literal whitespace in the
format to `\s+`, so it consumes one or more whitespace characters. -/
def sepSpaces : List Char → Option (List Char)
  | x :: xs => if isPySpace x then some (xs.dropWhile isPySpace) else none
  | [] => none

/-- Embedding of `datetime.strptime` for the two formats used by the
scripts, differing only in the date–time separator.  The trailing `[]`
check models "unconverted data remains"; the final guard models the
`datetime` constructor (minimum year 1, day bounded by the month
length, seconds below 60 even though the regex admits 60 and 61). -/
def strptimeWith (sep : List Char → Option (List Char)) (l : List Char) : Option DT :=
  (parseYear4 l).bind fun py =>
  (expectChar '-' py.2).bind fun r2 =>
  (parseField2 1 12 r2).bind fun pm =>
  (expectChar '-' pm.2).bind fun r4 =>
  (parseField2 1 31 r4).bind fun pd =>
  (sep pd.2).bind fun r6 =>
  (parseField2 0 23 r6).bind fun ph =>
  (expectChar ':' ph.2).bind fun r8 =>
  (parseField2 0 59 r8).bind fun pmi =>
  (expectChar ':' pmi.2).bind fun r10 =>
  (parseField2 0 61 r10).bind fun ps =>
  if ps.2 = [] ∧ 1 ≤ py.1 ∧ pd.1 ≤ daysInMonth py.1 pm.1 ∧ ps.1 ≤ 59 then
    some ⟨py.1, pm.1, pd.1, ph.1, pmi.1, ps.1⟩
  else none

/-- `strptime(s, '%Y-%m-%dT%H:%M:%S')`. -/
def strptime_T (s : String) : Option DT :=
  strptimeWith sepT s.data

/-- `strptime(s, '%Y-%m-%d %H:%M:%S')`. -/
def strptime_space (s : String) : Option DT :=
  strptimeWith sepSpaces s.data

/-- Seconds since midnight. -/
def secondsOfDay (dt : DT) : Nat :=
  dt.hour * 3600 + dt.minute * 60 + dt.second

/-- The previous calendar day (time fields untouched). -/
def prevDay (dt : DT) : DT :=
  if 1 < dt.day then { dt with day := dt.day - 1 }
  else if 1 < dt.month then
    { dt with month := dt.month - 1, day := daysInMonth dt.year (dt.month - 1) }
  else { dt with year := dt.year - 1, month := 12, day := 31 }

/-- Replace the time fields by the time-of-day `t` (in seconds). -/
def withTime (dt : DT) (t : Nat) : DT :=
  { dt with hour := t / 3600, minute := t % 3600 / 60, second := t % 60 }

/-- Embedding of `dt - timedelta(hours=9)`; `none` models the
`OverflowError` raised when the result would precede `datetime.min`
(which the bare `except` then swallows). -/
def subtract9h (dt : DT) : Option DT :=
  let t := secondsOfDay dt
  if 32400 ≤ t then some (withTime dt (t - 32400))
  else if dt.year = 1 ∧ dt.month = 1 ∧ dt.day = 1 then none
  else some (withTime (prevDay dt) (t + 54000))

/-- Two decimal digits, zero padded (`%m`, `%d`, `%H`, `%M`, `%S`). -/
def pad2 (n : Nat) : List Char :=
  if n < 10 then '0' :: (Nat.repr n).data else (Nat.repr n).data

/-- Embedding of `strftime('%Y-%m-%d %H:%M:%S+09:00')`; `%Y` is
unpadded, as C `strftime` renders it. -/
def strftime_out (dt : DT) : String :=
  ⟨(Nat.repr dt.year).data ++ '-' :: pad2 dt.month ++ '-' :: pad2 dt.day
    ++ ' ' :: pad2 dt.hour ++ ':' :: pad2 dt.minute ++ ':' :: pad2 dt.second
    ++ "+09:00".data⟩

/-- Embedding of `add_timezone_to_datetime`: try the `T` format, then
the space format; a parse failure or an overflow in the subtraction
falls through; if both attempts fail the input is returned unchanged. -/
def add_timezone_to_datetime (s : String) : String :=
  match (strptime_T s).bind subtract9h with
  | some r => strftime_out r
  | none =>
    match (strptime_space s).bind subtract9h with
    | some r => strftime_out r
    | none => s

/-- Leap years in `1..y`. -/
def leapsBefore (y : Nat) : Nat :=
  y / 4 - y / 100 + y / 400

/-- Total days of months `1..k` of year `y`. -/
def monthDaysAcc (y : Nat) : Nat → Nat
  | 0 => 0
  | k + 1 => monthDaysAcc y k + daysInMonth y (k + 1)

/-- Days from `0001-01-01` to the date of `dt` (proleptic Gregorian
ordinal, zero based). -/
def daysFromCivil (dt : DT) : Nat :=
  365 * (dt.year - 1) + leapsBefore (dt.year - 1)
    + monthDaysAcc dt.year (dt.month - 1) + (dt.day - 1)

/-- The instant of `dt` as seconds from `0001-01-01 00:00:00`. -/
def toInstant (dt : DT) : Nat :=
  86400 * daysFromCivil dt + secondsOfDay dt

/-! Auxiliary notions and concrete inputs used by the theorems. -/

/-- The adjacency invariant `remove_empty_lines` establishes: a kept
blank line is always preceded by a kept non-blank non-tag line. -/
def okPair (p l : List Char) : Prop :=
  isBlankLine l = true → (isBlankLine p = false ∧ prevIsTag p = false)

/-- A BOX record whose `coords` dictionary is truthy (for instance
`{"comment": 1}`) but carries none of the four corner keys, while a
box `object` with positive width and height is present. -/
def c2rec : AnnRec :=
  { kind := "BOX", coords := some ⟨none, none, none, none⟩,
    obj := some ⟨0, 0, 5, 5⟩, pts := [], ocr := "x" }

/-- A retained POLYGONS record whose transcription is the empty
string. -/
def c3rec : AnnRec :=
  { kind := "POLYGONS", coords := none, obj := none, pts := [⟨1, 2⟩], ocr := "" }

/-- A two-row manifest whose first row is skipped (its result JSON is
missing) while the second row is fully resolvable. -/
def c1rows : List CsvRow :=
  [⟨"a.jpg", none, none⟩, ⟨"b.jpg", some ⟨[]⟩, some ⟨[]⟩⟩]

/-- A two-row manifest with no skipped row. -/
def c1rowsOk : List CsvRow :=
  [⟨"a.jpg", some ⟨[]⟩, some ⟨[]⟩⟩, ⟨"b.jpg", some ⟨[]⟩, some ⟨[]⟩⟩]

/-! Theorems. -/

/-- C4: the claim (and the formatter's own comment) says the strict
self-closing form `<tag attrs/>` is collapsed to `<tag attrs></tag>`
while the spaced form `<tag attrs />` passes through unchanged.  The
first half holds, but the regex `<(\w+)([^>]*?)/>` also matches the
spaced form, so `fix_empty_tags` rewrites `<tag attr="x" />` to
`<tag attr="x" ></tag>` instead of leaving it untouched. -/
theorem C4_space_form_rewritten :
    fix_empty_tags "<tag attr=\"x\"/>" = "<tag attr=\"x\"></tag>" ∧
    fix_empty_tags "<tag attr=\"x\" />" = "<tag attr=\"x\" ></tag>" ∧
    fix_empty_tags "<tag attr=\"x\" />" ≠ "<tag attr=\"x\" />" := by
  decide

/-- C5 counterexample: the normalizer is `replace(' ', '')`, so a tab
— a whitespace character — survives it, contradicting the claim that
all whitespace characters are removed. -/
theorem C5_counterexample :
    isPySpace '\t' = true ∧
    removeSpaces "a\tb" = "a\tb" ∧
    removeSpaces "a\tb" ≠ "ab" := by
  decide

/-- Auxiliary count identity for the space filter. -/
theorem filter_ne_space_length (l : List Char) :
    (l.filter (fun c => c ≠ ' ')).length + l.count ' ' = l.length := by
  induction l with
  | nil => simp
  | cons c t ih =>
    by_cases h : c = ' ' <;>
      simp [h, List.count_cons, List.filter_cons] at ih ⊢ <;> omega

/-- C5 amended: the normalizer removes exactly the `U+0020` space
characters, keeping every other character (tabs and newlines included)
in order: the result is a sublist of the input, contains no space, and
is shorter by exactly the number of spaces. -/
theorem C5_amended_spaces_only (s : String) :
    (removeSpaces s).data.Sublist s.data ∧
    (removeSpaces s).data.count ' ' = 0 ∧
    (removeSpaces s).data.length + s.data.count ' ' = s.data.length := by
  refine ⟨List.filter_sublist _, ?_, filter_ne_space_length s.data⟩
  simp [removeSpaces, List.count_eq_zero, List.mem_filter]

/-- C10: a merged-variant row whose difficulty is neither `중` nor
`상` is skipped entirely: it emits no image element, appends nothing to
`missing_files`, adds nothing to `processed_count`, and the loop simply
moves on to the next row (with the dataframe index still advancing). -/
theorem C10_unknown_difficulty_skipped (idx : Nat) (r : CsvRowM) (rest : List CsvRowM)
    (h1 : r.difficulty ≠ "중") (h2 : r.difficulty ≠ "상") :
    processRowM idx r = (none, [], 0) ∧
    process_rows_merged idx (r :: rest) = process_rows_merged (idx + 1) rest := by
  have hstep : processRowM idx r = (none, [], 0) := by
    unfold processRowM
    by_cases hf : r.file_name = "" <;> simp [hf, h1, h2]
  refine ⟨hstep, ?_⟩
  rcases hp : process_rows_merged (idx + 1) rest with ⟨a, b, c⟩
  simp [process_rows_merged, hstep, hp]

/-- C10 witness at a concrete row of difficulty `하`. -/
theorem C10_unknown_difficulty_skipped_w :
    processRowM 0 ⟨"하", "1", "a.jpg", true, none, true, none⟩ = (none, [], 0) ∧
    process_rows_merged 0 [⟨"하", "1", "a.jpg", true, none, true, none⟩] =
      process_rows_merged 1 [] :=
  C10_unknown_difficulty_skipped 0 ⟨"하", "1", "a.jpg", true, none, true, none⟩ []
    (by decide) (by decide)

/-- C9 counterexample: `<a//>` is a string on whose pipeline output
re-running the pipeline changes the result — the first pass rewrites it
to `<a/></a>`, which itself still matches the self-closing pattern. -/
theorem C9_counterexample :
    formatPipeline (formatPipeline "<a//>") ≠ formatPipeline "<a//>" := by
  decide

/-- C1 counterexample: in the manifest `c1rows` the first row is
skipped, so the first (and only) output image element carries id `"1"`,
not `"0"` as the claim requires of the Nth output element. -/
theorem C1_counterexample :
    (process_rows 0 c1rows).map ImageEl.id = ["1"] ∧
    (["1"] : List String) ≠ ["0"] := by
  decide

/-- C2 counterexample: a BOX record whose truthy `coords` dictionary
has all four named corners absent does not fall back to its valid
`left/top/width/height` object — no points are emitted and the record
is dropped, while the claim requires the four synthesized corners. -/
theorem C2_counterexample :
    c2rec.kind = "BOX" ∧
    c2rec.coords = some ⟨none, none, none, none⟩ ∧
    c2rec.obj = some ⟨0, 0, 5, 5⟩ ∧
    (0 : ℚ) < 5 ∧
    recPoints c2rec = [] ∧
    recPoints c2rec ≠ [pairStr 0 0, pairStr 5 0, pairStr 5 5, pairStr 0 5] := by
  refine ⟨rfl, rfl, rfl, by norm_num, rfl, by decide⟩

/-- C3 counterexample: in the 1128 variant a retained record whose
transcription is the empty string is labelled `text` and receives an
attribute child with empty text, not the `empty` label without
attribute child that the claim requires. -/
theorem C3_counterexample :
    c3rec.ocr = "" ∧
    recPoints c3rec ≠ [] ∧
    buildPolys mkPoly1128 0 [c3rec] =
      [⟨"text", "file", "0", "0", "1.0000,2.0000", some ""⟩] ∧
    ("text" : String) ≠ "empty" := by
  refine ⟨rfl, by decide, by decide, by decide⟩

/-- C6 counterexample: `0001-01-01T03:00:00` is parseable by the first
format, yet subtracting 9 hours raises `OverflowError` (swallowed by
the bare `except`), so the function returns the input unchanged instead
of the formatted earlier instant. -/
theorem C6_counterexample :
    strptime_T "0001-01-01T03:00:00" = some ⟨1, 1, 1, 3, 0, 0⟩ ∧
    add_timezone_to_datetime "0001-01-01T03:00:00" = "0001-01-01T03:00:00" ∧
    ¬ "+09:00".data.IsSuffix "0001-01-01T03:00:00".data := by
  refine ⟨by decide, by decide, by decide⟩

/-- `relStep` never empties a non-empty accumulator. -/
theorem relStep_ne_nil (acc : List (List Char)) (l : List Char) (h : acc ≠ []) :
    relStep acc l ≠ [] := by
  unfold relStep
  rcases acc with _ | ⟨p, t⟩
  · simp at h
  · by_cases hb : isBlankLine l <;> simp [hb]
    split_ifs <;> simp

/-- The fold of `relStep` never empties a non-empty accumulator. -/
theorem foldl_relStep_ne_nil (rest : List (List Char)) (acc : List (List Char))
    (h : acc ≠ []) : rest.foldl relStep acc ≠ [] := by
  induction rest generalizing acc with
  | nil => simpa using h
  | cons l rs ih => exact ih (relStep acc l) (relStep_ne_nil acc l h)

/-- `relStep` only ever adds the processed line. -/
theorem mem_relStep (acc : List (List Char)) (l x : List Char)
    (h : x ∈ relStep acc l) : x = l ∨ x ∈ acc := by
  unfold relStep at h
  rcases acc with _ | ⟨p, t⟩
  · by_cases hb : isBlankLine l <;> simp_all
  · by_cases hb : isBlankLine l <;> simp [hb] at h
    · split_ifs at h <;> simp_all
    · simp_all

/-- Every line kept by the fold comes from the accumulator or from the
processed lines. -/
theorem mem_foldl_relStep (rest : List (List Char)) (acc : List (List Char))
    (x : List Char) (h : x ∈ rest.foldl relStep acc) : x ∈ acc ∨ x ∈ rest := by
  induction rest generalizing acc with
  | nil => exact Or.inl (by simpa using h)
  | cons l rs ih =>
    rcases ih (relStep acc l) h with h2 | h2
    · rcases mem_relStep acc l x h2 with h3 | h3
      · exact Or.inr (by simp [h3])
      · exact Or.inl h3
    · exact Or.inr (by simp [h2])

/-- One `relStep` preserves the `okPair` chain invariant of the kept
lines (read in output order). -/
theorem chain'_relStep (acc : List (List Char)) (l : List Char) (hne : acc ≠ [])
    (h : List.Chain' okPair acc.reverse) :
    List.Chain' okPair (relStep acc l).reverse := by
  rcases acc with _ | ⟨p, t⟩
  · simp at hne
  · have hcons : ∀ hok : okPair p l, List.Chain' okPair (l :: p :: t).reverse := by
      intro hok
      rw [List.reverse_cons]
      refine List.chain'_append.mpr ⟨h, by simp, ?_⟩
      intro x hx y hy
      rw [List.getLast?_reverse] at hx
      simp at hx hy
      subst hx; subst hy; exact hok
    by_cases hb : isBlankLine l
    · rw [show relStep (p :: t) l =
          if isBlankLine p then p :: t else if prevIsTag p then p :: t else l :: p :: t from by
        unfold relStep; simp [hb]]
      split_ifs with h1 h2
      · exact h
      · exact h
      · exact hcons (fun _ => ⟨by simpa using h1, by simpa using h2⟩)
    · rw [show relStep (p :: t) l = l :: p :: t from by unfold relStep; simp [hb]]
      exact hcons (fun hbl => absurd hbl (by simp [hb]))

/-- The fold of `relStep` establishes the `okPair` chain invariant. -/
theorem chain'_foldl_relStep (rest : List (List Char)) (acc : List (List Char))
    (hne : acc ≠ []) (h : List.Chain' okPair acc.reverse) :
    List.Chain' okPair ((rest.foldl relStep acc).reverse) := by
  induction rest generalizing acc with
  | nil => simpa using h
  | cons l rs ih =>
    exact ih (relStep acc l) (relStep_ne_nil acc l hne) (chain'_relStep acc l hne h)

/-- On a line list already satisfying the invariant, the fold keeps
every line. -/
theorem foldl_relStep_of_chain (rest : List (List Char)) (acc : List (List Char))
    (p : List Char) (hacc : acc.head? = some p)
    (hch : List.Chain' okPair (p :: rest)) :
    rest.foldl relStep acc = rest.reverse ++ acc := by
  induction rest generalizing acc p with
  | nil => simp
  | cons l rs ih =>
    obtain ⟨hok, hch2⟩ := List.chain'_cons.mp hch
    rcases acc with _ | ⟨a0, t⟩
    · simp at hacc
    · have ha0 : a0 = p := by simpa using hacc
      subst ha0
      have hstep : relStep (a0 :: t) l = l :: a0 :: t := by
        by_cases hb : isBlankLine l
        · obtain ⟨h1, h2⟩ := hok hb
          unfold relStep
          simp [hb, h1, h2]
        · unfold relStep
          simp [hb]
      rw [List.foldl_cons, hstep, ih (l :: a0 :: t) l (by simp) hch2]
      simp

/-- The first line of a split contains no newline, nor does any later
line. -/
theorem splitNl_no_nl (l : List Char) :
    '\n' ∉ (splitNl l).1 ∧ ∀ m ∈ (splitNl l).2, '\n' ∉ m := by
  induction l with
  | nil => simp [splitNl]
  | cons c cs ih =>
    by_cases h : c = '\n' <;> simp [splitNl, h]
    · exact ⟨ih.1, ih.2⟩
    · exact ⟨⟨fun hc => h hc.symm, ih.1⟩, ih.2⟩

/-- Splitting after a newline-free prefix. -/
theorem splitNl_append (l m : List Char) (h : '\n' ∉ l) :
    splitNl (l ++ m) = (l ++ (splitNl m).1, (splitNl m).2) := by
  induction l with
  | nil => simp
  | cons c cs ih =>
    have hc : ¬ c = '\n' := fun hh => h (by simp [hh])
    have hcs : '\n' ∉ cs := fun hh => h (by simp [hh])
    simp [splitNl, hc, ih hcs]

/-- Splitting is a left inverse of joining for newline-free lines. -/
theorem splitNl_joinLines (h : List Char) (t : List (List Char))
    (hh : '\n' ∉ h) (ht : ∀ m ∈ t, '\n' ∉ m) :
    splitNl (joinLines (h :: t)) = (h, t) := by
  induction t generalizing h with
  | nil =>
    have : joinLines [h] = h ++ [] := by simp [joinLines]
    rw [this, splitNl_append h [] hh]
    simp [splitNl]
  | cons m ts ih =>
    have hjoin : joinLines (h :: m :: ts) = h ++ '\n' :: joinLines (m :: ts) := by
      simp [joinLines]
    rw [hjoin, splitNl_append h _ hh]
    have hm := ih m (ht m (by simp)) (fun x hx => ht x (by simp [hx]))
    simp [splitNl, hm]

/-- The line filter of the formatter is idempotent: its output has no
blank line after a blank or tag line, so a second pass keeps every
line. -/
theorem remove_empty_lines_idem (s : String) :
    remove_empty_lines (remove_empty_lines s) = remove_empty_lines s := by
  have hne : (splitNl s.data).2.foldl relStep [(splitNl s.data).1] ≠ [] :=
    foldl_relStep_ne_nil _ _ (by simp)
  have hchain : List.Chain' okPair
      (((splitNl s.data).2.foldl relStep [(splitNl s.data).1]).reverse) :=
    chain'_foldl_relStep _ _ (by simp) (by simp)
  have hnl : ∀ x ∈ ((splitNl s.data).2.foldl relStep [(splitNl s.data).1]).reverse,
      '\n' ∉ x := by
    intro x hx
    rw [List.mem_reverse] at hx
    rcases mem_foldl_relStep _ _ _ hx with h2 | h2
    · simp at h2
      subst h2
      exact (splitNl_no_nl s.data).1
    · exact (splitNl_no_nl s.data).2 x h2
  rcases ho : ((splitNl s.data).2.foldl relStep [(splitNl s.data).1]).reverse
      with _ | ⟨k0, ks⟩
  · exact absurd (by simpa using congrArg List.reverse ho) hne
  · show remove_empty_lines ⟨joinLines _⟩ = _
    unfold remove_empty_lines
    rw [ho]
    have hsplit : splitNl (joinLines (k0 :: ks)) = (k0, ks) :=
      splitNl_joinLines k0 ks (hnl k0 (by rw [ho]; simp))
        (fun m hm => hnl m (by rw [ho]; simp [hm]))
    show (⟨joinLines (((splitNl (joinLines (k0 :: ks))).2.foldl relStep
        [(splitNl (joinLines (k0 :: ks))).1]).reverse)⟩ : String) = _
    rw [hsplit]
    have hkeep : ks.foldl relStep [k0] = ks.reverse ++ [k0] :=
      foldl_relStep_of_chain ks [k0] k0 rfl (ho ▸ hchain)
    rw [hkeep]
    simp

/-- C9 amended: `remove_empty_lines` is idempotent on every string;
the full pipeline is idempotent on every pipeline output on which
`fix_empty_tags` makes no further change (which fails in general, see
the counterexample: a first rewrite can create a fresh strict
self-closing match). -/
theorem C9_amended_idempotent (x : String)
    (hfix : fix_empty_tags (formatPipeline x) = formatPipeline x) :
    formatPipeline (formatPipeline x) = formatPipeline x ∧
    remove_empty_lines (remove_empty_lines x) = remove_empty_lines x := by
  constructor
  · show remove_empty_lines (fix_empty_tags (formatPipeline x)) = _
    rw [hfix]
    show remove_empty_lines (remove_empty_lines (fix_empty_tags x)) = _
    exact remove_empty_lines_idem _
  · exact remove_empty_lines_idem x

/-- C9 witness at `<a/>`, a string whose pipeline output is a fixpoint
of the tag rewrite. -/
theorem C9_amended_idempotent_w :
    formatPipeline (formatPipeline "<a/>") = formatPipeline "<a/>" ∧
    remove_empty_lines (remove_empty_lines "<a/>") = remove_empty_lines "<a/>" :=
  C9_amended_idempotent "<a/>" (by decide)

/-- A dot/hyphen head merges with the whole following dot/hyphen run. -/
theorem collapseDotsSpec_run (cs : List Char) (c : Char) (hc : isDotDash c = true) :
    collapseDotsSpec (c :: cs) = '.' :: collapseDotsSpec (cs.dropWhile isDotDash) := by
  induction cs generalizing c with
  | nil => simp [collapseDotsSpec, hc]
  | cons d t ih =>
    by_cases hd : isDotDash d
    · rw [show collapseDotsSpec (c :: d :: t) =
            (if (collapseDotsSpec (d :: t)).head? = some '.' then collapseDotsSpec (d :: t)
             else '.' :: collapseDotsSpec (d :: t)) from by simp [collapseDotsSpec, hc],
          ih d hd]
      simp [List.dropWhile_cons, hd]
    · have hdot : ¬ d = '.' := fun hh => by simp [isDotDash, hh] at hd
      have hr : collapseDotsSpec (d :: t) = d :: collapseDotsSpec t := by
        simp [collapseDotsSpec, hd]
      rw [show collapseDotsSpec (c :: d :: t) =
            (if (collapseDotsSpec (d :: t)).head? = some '.' then collapseDotsSpec (d :: t)
             else '.' :: collapseDotsSpec (d :: t)) from by simp [collapseDotsSpec, hc]]
      simp [hr, hdot, List.dropWhile_cons, hd]

/-- Dropping a prefix never lengthens a list. -/
theorem length_dropWhile_le (p : Char → Bool) (l : List Char) :
    (l.dropWhile p).length ≤ l.length := by
  induction l with
  | nil => simp
  | cons c cs ih =>
    by_cases h : p c
    · simp only [List.dropWhile_cons, h, if_pos, List.length_cons]
      omega
    · simp [List.dropWhile_cons, h]

/-- The fuel-indexed run collapse agrees with its spec-worded
formulation whenever the fuel covers the input length. -/
theorem collapseRuns_eq_spec (fuel : Nat) (l : List Char) (h : l.length ≤ fuel) :
    collapseRuns fuel l = collapseDotsSpec l := by
  induction fuel generalizing l with
  | zero =>
    have : l = [] := List.eq_nil_of_length_eq_zero (Nat.le_zero.mp h)
    simp [this, collapseRuns, collapseDotsSpec]
  | succ f ih =>
    cases l with
    | nil => simp [collapseRuns, collapseDotsSpec]
    | cons c cs =>
      by_cases hc : isDotDash c
      · rw [collapseDotsSpec_run cs c hc]
        simp only [collapseRuns, hc, if_pos]
        rw [ih _ (le_trans (length_dropWhile_le _ _) (by simpa using Nat.le_of_succ_le_succ h))]
      · simp only [collapseRuns, hc, if_neg, Bool.false_eq_true, not_false_eq_true,
          collapseDotsSpec]
        rw [ih cs (by simpa using Nat.le_of_succ_le_succ h)]

/-- C8: `clean_filename` behaves exactly as the spec words it —
characters outside word/Hangul/dot/hyphen removed, each maximal
dot/hyphen run replaced by a single dot, `.jpg` appended exactly when
no dot remains. -/
theorem C8_clean_filename_spec (s : String) (h : s ≠ "") :
    clean_filename s = cleanFilenameSpec s := by
  simp only [clean_filename, cleanFilenameSpec, if_neg h,
    collapseRuns_eq_spec _ _ le_rfl]

/-- C8 witness at a concrete filename with specials, a run and no
extension left after cleaning. -/
theorem C8_clean_filename_spec_w :
    clean_filename "a- b" = cleanFilenameSpec "a- b" ∧
    clean_filename "a- b" = "a.b" :=
  ⟨C8_clean_filename_spec "a- b" (by decide), by decide⟩

/-- The image element's id is `str(image_id - 1)` in every branch of
the 1128 conversion. -/
theorem convert_result_id (res : ResultDoc) (imageId : Nat) (name : String)
    (src : SrcDoc) :
    (convert_result_json_to_xml res imageId name src).id = toString (imageId - 1) := by
  unfold convert_result_json_to_xml
  split
  · rfl
  · split
    · rfl
    · split
      · rfl
      · rfl

/-- A fully resolvable row is converted with `image_id = idx + 1`. -/
theorem processRow1128_eq (idx : Nat) (r : CsvRow) (res : ResultDoc) (src : SrcDoc)
    (hn : r.file_name ≠ "") (hr : r.resultJson = some res) (hs : r.sourceJson = some src) :
    processRow1128 idx r = some (convert_result_json_to_xml res (idx + 1) r.file_name src) := by
  unfold processRow1128
  simp [hn, hr, hs]

/-- A non-retained row yields no element. -/
theorem processRow1128_none (idx : Nat) (r : CsvRow) (h : keptRow r = false) :
    processRow1128 idx r = none := by
  rcases r with ⟨fn, rj, sj⟩
  unfold keptRow at h
  unfold processRow1128
  by_cases hfn : fn = ""
  · simp [hfn]
  · simp [hfn] at h
    rcases rj with _ | res <;> rcases sj with _ | src <;> simp_all

/-- The row loop step, retained case. -/
theorem process_rows_cons_some (i : Nat) (r : CsvRow) (rest : List CsvRow) (e : ImageEl)
    (h : processRow1128 i r = some e) :
    process_rows i (r :: rest) = e :: process_rows (i + 1) rest := by
  rw [show process_rows i (r :: rest) =
      (match processRow1128 i r with
       | some e => e :: process_rows (i + 1) rest
       | none => process_rows (i + 1) rest) from rfl, h]

/-- The row loop step, skipped case. -/
theorem process_rows_cons_none (i : Nat) (r : CsvRow) (rest : List CsvRow)
    (h : processRow1128 i r = none) :
    process_rows i (r :: rest) = process_rows (i + 1) rest := by
  rw [show process_rows i (r :: rest) =
      (match processRow1128 i r with
       | some e => e :: process_rows (i + 1) rest
       | none => process_rows (i + 1) rest) from rfl, h]

/-- Elements of an enumeration come from the underlying list. -/
theorem snd_mem_enumFrom (l : List CsvRow) (i : Nat) (p : Nat × CsvRow)
    (h : p ∈ l.enumFrom i) : p.2 ∈ l := by
  induction l generalizing i with
  | nil => simp [List.enumFrom] at h
  | cons r rest ih =>
    rw [List.enumFrom] at h
    rcases List.mem_cons.mp h with h2 | h2
    · simp [h2]
    · exact List.mem_cons.mpr (Or.inr (ih (i + 1) h2))

/-- The ids of the emitted elements are exactly the manifest indices of
the retained rows, in manifest order. -/
theorem process_rows_map_id (i : Nat) (rows : List CsvRow) :
    (process_rows i rows).map ImageEl.id =
      ((rows.enumFrom i).filter (fun p => keptRow p.2)).map (fun p => toString p.1) := by
  induction rows generalizing i with
  | nil => simp [process_rows, List.enumFrom]
  | cons r rest ih =>
    by_cases h : keptRow r = true
    · rcases r with ⟨fn, rj, sj⟩
      have h2 := h
      unfold keptRow at h2
      simp only [Bool.and_eq_true, decide_eq_true_eq] at h2
      obtain ⟨⟨h3, h4⟩, h5⟩ := h2
      rcases rj with _ | res
      · simp at h4
      rcases sj with _ | src
      · simp at h5
      rw [process_rows_cons_some i _ rest _ (processRow1128_eq i _ res src h3 rfl rfl)]
      rw [List.enumFrom]
      rw [List.filter_cons_of_pos (by simpa using h)]
      simp only [List.map_cons, convert_result_id]
      rw [ih (i + 1)]
      simp
    · have hb : keptRow r = false := by simpa using h
      rw [process_rows_cons_none i r rest (processRow1128_none i r hb)]
      rw [List.enumFrom, List.filter_cons_of_neg (by simp [hb])]
      exact ih (i + 1)

/-- C1 amended: the 1128 loop appends elements in manifest row order
and the element built for the row at zero-based position `k` carries id
`k`; when every row is retained, the Nth output element carries id
`N - 1`.  (When a row is skipped, later elements keep their manifest
index, so the Nth output id can exceed `N - 1` — see the
counterexample.) -/
theorem C1_amended_order (rows : List CsvRow) :
    (process_rows 0 rows).map ImageEl.id =
      ((rows.enum).filter (fun p => keptRow p.2)).map (fun p => toString p.1) ∧
    ((∀ r ∈ rows, keptRow r = true) →
      (process_rows 0 rows).map ImageEl.id = (List.range rows.length).map toString) := by
  have base := process_rows_map_id 0 rows
  constructor
  · exact base
  · intro hall
    rw [base]
    rw [List.filter_eq_self.mpr (fun p hp => by simpa using hall p.2 (snd_mem_enumFrom rows 0 p hp))]
    rw [show (fun p : Nat × CsvRow => toString p.1) = (fun n : Nat => toString n) ∘ Prod.fst from rfl,
      ← List.map_map, List.enumFrom_map_fst, ← List.range_eq_range']

/-- C1 witness: on a fully resolvable two-row manifest the output ids
are `0, 1` in order. -/
theorem C1_amended_order_w :
    (process_rows 0 c1rowsOk).map ImageEl.id = (List.range c1rowsOk.length).map toString :=
  (C1_amended_order c1rowsOk).2 (by decide)

/-- C7: a result document with fewer than two `results` rows, or whose
payload cell is null, still yields an image element carrying id, name,
width and height but with zero polygon children, in both variants; the
row itself is still emitted (not dropped) by the row loop. -/
theorem C7_zero_payload (res : ResultDoc) (imageId idx : Nat) (name : String)
    (src : SrcDoc) (difficulty : String) (hname : name ≠ "")
    (h : res.results.length < 2 ∨ (res.results[1]?).bind List.head? = some Cell.null) :
    convert_result_json_to_xml res imageId name src = baseImage imageId name src ∧
    convert_result_json_to_xml_merged res imageId name src difficulty =
      baseImage imageId name src ∧
    (convert_result_json_to_xml res imageId name src).polys = [] ∧
    (convert_result_json_to_xml res imageId name src).id = toString (imageId - 1) ∧
    (convert_result_json_to_xml res imageId name src).name = escape_xml_text name ∧
    (convert_result_json_to_xml res imageId name src).width = toString (imageSize src).1 ∧
    (convert_result_json_to_xml res imageId name src).height = toString (imageSize src).2 ∧
    processRow1128 idx ⟨name, some res, some src⟩ =
      some (convert_result_json_to_xml res (idx + 1) name src) := by
  have h1 : convert_result_json_to_xml res imageId name src = baseImage imageId name src := by
    unfold convert_result_json_to_xml
    by_cases hl : res.results.length < 2
    · rw [if_pos hl]
    · rcases h with h | h
      · exact absurd h hl
      · rw [if_neg hl, h]
        rfl
  have h2 : convert_result_json_to_xml_merged res imageId name src difficulty =
      baseImage imageId name src := by
    unfold convert_result_json_to_xml_merged
    by_cases hl : res.results.length ≤ 1
    · rw [if_pos hl]
    · rcases h with h | h
      · exact absurd (by omega) hl
      · rw [if_neg hl, h]
        by_cases hd : difficulty = "중" <;> simp [hd, cellAnns]
  refine ⟨h1, h2, ?_, ?_, ?_, ?_, ?_, ?_⟩
  · rw [h1]; rfl
  · rw [h1]; rfl
  · rw [h1]; rfl
  · rw [h1]; rfl
  · rw [h1]; rfl
  · unfold processRow1128
    simp [hname]

/-- C7 witness at a concrete document whose second row's first cell is
null. -/
theorem C7_zero_payload_w :
    convert_result_json_to_xml ⟨[[], [Cell.null]]⟩ 1 "a.jpg" ⟨[]⟩ =
      baseImage 1 "a.jpg" ⟨[]⟩ ∧
    convert_result_json_to_xml_merged ⟨[[], [Cell.null]]⟩ 1 "a.jpg" ⟨[]⟩ "중" =
      baseImage 1 "a.jpg" ⟨[]⟩ ∧
    (convert_result_json_to_xml ⟨[[], [Cell.null]]⟩ 1 "a.jpg" ⟨[]⟩).polys = [] ∧
    (convert_result_json_to_xml ⟨[[], [Cell.null]]⟩ 1 "a.jpg" ⟨[]⟩).id = toString (1 - 1) ∧
    (convert_result_json_to_xml ⟨[[], [Cell.null]]⟩ 1 "a.jpg" ⟨[]⟩).name =
      escape_xml_text "a.jpg" ∧
    (convert_result_json_to_xml ⟨[[], [Cell.null]]⟩ 1 "a.jpg" ⟨[]⟩).width =
      toString (imageSize ⟨[]⟩).1 ∧
    (convert_result_json_to_xml ⟨[[], [Cell.null]]⟩ 1 "a.jpg" ⟨[]⟩).height =
      toString (imageSize ⟨[]⟩).2 ∧
    processRow1128 0 ⟨"a.jpg", some ⟨[[], [Cell.null]]⟩, some ⟨[]⟩⟩ =
      some (convert_result_json_to_xml ⟨[[], [Cell.null]]⟩ (0 + 1) "a.jpg" ⟨[]⟩) :=
  C7_zero_payload ⟨[[], [Cell.null]]⟩ 1 0 "a.jpg" ⟨[]⟩ "중" (by decide) (Or.inr (by decide))

/-- C3 amended: after space removal, in both variants the literal
token `empty` gets label `empty` and no attribute child, and a
non-blank transcription other than `empty` gets label `text` with the
escaped text as attribute; the variants differ on blank transcriptions:
the merged variant labels the empty and the whitespace-only
transcription `empty` with no attribute child, while the 1128 variant
labels them `text` and attaches an attribute child carrying the
(possibly empty) text. -/
theorem C3_amended_label_rules (a : AnnRec) (zo : Nat) (ps : List String) :
    (removeSpaces a.ocr = "empty" →
      (mkPoly1128 zo a ps).label = "empty" ∧ (mkPoly1128 zo a ps).attrText = none ∧
      (mkPolyMerged zo a ps).label = "empty" ∧ (mkPolyMerged zo a ps).attrText = none) ∧
    (removeSpaces a.ocr = "" →
      (mkPoly1128 zo a ps).label = "text" ∧
      (mkPoly1128 zo a ps).attrText = some "" ∧
      (mkPolyMerged zo a ps).label = "empty" ∧ (mkPolyMerged zo a ps).attrText = none) ∧
    (removeSpaces a.ocr ≠ "" → isBlankLine (removeSpaces a.ocr).data = true →
      (mkPoly1128 zo a ps).label = "text" ∧
      (mkPoly1128 zo a ps).attrText = some (escape_xml_text (removeSpaces a.ocr)) ∧
      (mkPolyMerged zo a ps).label = "empty" ∧ (mkPolyMerged zo a ps).attrText = none) ∧
    (removeSpaces a.ocr ≠ "empty" → isBlankLine (removeSpaces a.ocr).data = false →
      (mkPoly1128 zo a ps).label = "text" ∧
      (mkPoly1128 zo a ps).attrText = some (escape_xml_text (removeSpaces a.ocr)) ∧
      (mkPolyMerged zo a ps).label = "text" ∧
      (mkPolyMerged zo a ps).attrText = some (escape_xml_text (removeSpaces a.ocr))) := by
  refine ⟨?_, ?_, ?_, ?_⟩
  · intro h
    simp [mkPoly1128, mkPolyMerged, h]
  · intro h
    simp [mkPoly1128, mkPolyMerged, h, escape_xml_text]
  · intro h hb
    have hne : removeSpaces a.ocr ≠ "empty" := by
      intro hh
      rw [hh] at hb
      simp [isBlankLine, isPySpace] at hb
    simp [mkPoly1128, mkPolyMerged, h, hb, hne]
  · intro h hb
    have hne : removeSpaces a.ocr ≠ "" := by
      intro hh
      rw [hh] at hb
      simp [isBlankLine] at hb
    simp [mkPoly1128, mkPolyMerged, h, hb, hne]

/-- C3 witness: an ordinary transcription `ab` is labelled `text` with
attribute `ab` in both variants. -/
theorem C3_amended_label_rules_w :
    (mkPoly1128 0 ⟨"POLYGONS", none, none, [⟨1, 2⟩], "ab"⟩ ["p"]).label = "text" ∧
    (mkPoly1128 0 ⟨"POLYGONS", none, none, [⟨1, 2⟩], "ab"⟩ ["p"]).attrText =
      some (escape_xml_text (removeSpaces "ab")) ∧
    (mkPolyMerged 0 ⟨"POLYGONS", none, none, [⟨1, 2⟩], "ab"⟩ ["p"]).label = "text" ∧
    (mkPolyMerged 0 ⟨"POLYGONS", none, none, [⟨1, 2⟩], "ab"⟩ ["p"]).attrText =
      some (escape_xml_text (removeSpaces "ab")) :=
  (C3_amended_label_rules ⟨"POLYGONS", none, none, [⟨1, 2⟩], "ab"⟩ 0 ["p"]).2.2.2
    (by decide) (by decide)

/-- Decimal digits are not the dot. -/
theorem digitChar_ne_dot (k : Nat) (h : k < 10) : Nat.digitChar k ≠ '.' := by
  interval_cases k <;> decide

/-- No fractional digit is a dot. -/
theorem pad4frac_ne_dot (n : Nat) : ∀ ch ∈ pad4frac n, ch ≠ '.' := by
  intro ch hch
  simp [pad4frac] at hch
  rcases hch with h | h | h | h <;>
    (subst h; exact digitChar_ne_dot _ (Nat.mod_lt _ (by norm_num)))

/-- `takeWhile` stops exactly at the first failing element. -/
theorem takeWhile_all_append (p : Char → Bool) (l : List Char) (x : Char)
    (m : List Char) (hl : ∀ a ∈ l, p a = true) (hx : p x = false) :
    (l ++ x :: m).takeWhile p = l := by
  induction l with
  | nil => simp [List.takeWhile_cons, hx]
  | cons c cs ih =>
    have hc : p c = true := hl c (by simp)
    simp [List.takeWhile_cons, hc]
    exact ih (fun a ha => hl a (by simp [ha]))

/-- Every rendered coordinate has exactly four characters after its
(unique, final) dot, and it does contain a dot. -/
theorem coordStr_fourDigits (q : ℚ) :
    ((coordStr q).data.reverse.takeWhile (fun ch => ch ≠ '.')).length = 4 ∧
    '.' ∈ (coordStr q).data := by
  have hdata : (coordStr q).data =
      ((if rhe4 q < 0 then ['-'] else []) ++ (Nat.repr ((rhe4 q).natAbs / 10000)).data)
        ++ '.' :: pad4frac ((rhe4 q).natAbs % 10000) := by
    simp [coordStr, fmtFixed4]
  rw [hdata]
  constructor
  · rw [List.reverse_append, List.reverse_cons]
    rw [show ((pad4frac ((rhe4 q).natAbs % 10000)).reverse ++ ['.']) ++
        ((if rhe4 q < 0 then ['-'] else []) ++
          (Nat.repr ((rhe4 q).natAbs / 10000)).data).reverse =
        (pad4frac ((rhe4 q).natAbs % 10000)).reverse ++ '.' ::
        ((if rhe4 q < 0 then ['-'] else []) ++
          (Nat.repr ((rhe4 q).natAbs / 10000)).data).reverse from by simp]
    rw [takeWhile_all_append _ _ _ _
        (fun a ha => by
          simp only [List.mem_reverse] at ha
          simpa using pad4frac_ne_dot _ a ha)
        (by simp)]
    simp [pad4frac]
  · simp

/-- Rounding to four decimals is idempotent: applying the scaled
round-half-even to the already rounded value recovers the same
integer, so `f"{round(v, 4):.4f}"` renders exactly `rhe4 v`. -/
theorem rhe4_round4 (q : ℚ) : rhe4 (round4 q) = rhe4 q := by
  set k := rhe4 q with hk
  have hden : ((round4 q).den : ℚ) ≠ 0 := by
    exact_mod_cast (round4 q).den_nz
  have hq : ((round4 q).num : ℚ) / ((round4 q).den : ℚ) = (k : ℚ) / 10000 := by
    rw [Rat.num_div_den]
    rfl
  have h1 : ((round4 q).num : ℚ) * 10000 = (k : ℚ) * ((round4 q).den : ℚ) :=
    (div_eq_div_iff hden (by norm_num)).mp hq
  have hz : (round4 q).num * 10000 = k * ((round4 q).den : ℤ) := by
    exact_mod_cast h1
  have hdpos : (0 : ℤ) < ((round4 q).den : ℤ) := by
    exact_mod_cast (round4 q).pos
  show (let n := (round4 q).num * 10000
        let d := ((round4 q).den : ℤ)
        let f := Int.fdiv n d
        let r2 := 2 * (n - f * d)
        if r2 < d then f
        else if d < r2 then f + 1
        else if f % 2 = 0 then f else f + 1) = k
  simp only [hz, Int.mul_fdiv_cancel k (by omega : ((round4 q).den : ℤ) ≠ 0)]
  simp [hdpos]

/-- C2 amended: a BOX record emits the four named corners (in order
tl, tr, br, bl) whenever the `coords` dictionary is truthy and all four
corners are present, regardless of any `object` box; the
`left/top/width/height` fallback with its four synthesized corners
applies only when `coords` is absent or empty; every other BOX record
emits no points and is dropped silently — in particular a truthy
`coords` lacking a corner suppresses the fallback even when a valid
`object` box is present (see the counterexample).  Each coordinate is
rendered as its 4-decimal half-even rounding with exactly four
fractional digits. -/
theorem C2_amended_box (a : AnnRec) (c : Corners) (tl tr br bl : Pt) (o : BoxSpec)
    (x y : ℚ) (h : a.kind = "BOX") :
    (a.coords = some c → c.tl = some tl → c.tr = some tr → c.br = some br →
      c.bl = some bl →
      recPoints a = [pairStr tl.x tl.y, pairStr tr.x tr.y, pairStr br.x br.y,
        pairStr bl.x bl.y]) ∧
    (a.coords = none → a.obj = some o → 0 < o.width → 0 < o.height →
      recPoints a = [pairStr o.left o.top, pairStr (o.left + o.width) o.top,
        pairStr (o.left + o.width) (o.top + o.height),
        pairStr o.left (o.top + o.height)]) ∧
    (a.coords = some c →
      (c.tl = none ∨ c.tr = none ∨ c.br = none ∨ c.bl = none) → recPoints a = []) ∧
    (a.coords = none → a.obj = some o → (o.width ≤ 0 ∨ o.height ≤ 0) →
      recPoints a = []) ∧
    (a.coords = none → a.obj = none → recPoints a = []) ∧
    (recPoints a = [] →
      buildPolys mkPoly1128 0 [a] = [] ∧ buildPolys mkPolyMerged 0 [a] = []) ∧
    pairStr x y = coordStr x ++ "," ++ coordStr y ∧
    coordStr x = fmtFixed4 (rhe4 (round4 x)) ∧
    ((coordStr x).data.reverse.takeWhile (fun ch => ch ≠ '.')).length = 4 ∧
    '.' ∈ (coordStr x).data := by
  refine ⟨?_, ?_, ?_, ?_, ?_, ?_, rfl, ?_, (coordStr_fourDigits x).1,
    (coordStr_fourDigits x).2⟩
  · intro hc h1 h2 h3 h4
    simp [recPoints, h, hc, h1, h2, h3, h4]
  · intro hc ho hw hh2
    simp only [recPoints, h, if_pos, hc, ho]
    rw [if_pos ⟨hw, hh2⟩]
  · intro hc hnone
    simp only [recPoints, h, if_pos, hc]
    rcases c with ⟨ctl, ctr, cbr, cbl⟩
    cases ctl <;> cases ctr <;> cases cbr <;> cases cbl <;> simp_all
  · intro hc ho hle
    simp only [recPoints, h, if_pos, hc, ho]
    rw [if_neg]
    rintro ⟨hw, hh2⟩
    rcases hle with hle | hle
    · exact absurd hw (not_lt.mpr hle)
    · exact absurd hh2 (not_lt.mpr hle)
  · intro hc ho
    simp [recPoints, h, hc, ho]
  · intro hz
    constructor <;> simp [buildPolys, hz]
  · rw [rhe4_round4]
    rfl

/-- C2 witness: a record carrying all four corners and also a valid
box object emits exactly the four named corners, in order. -/
theorem C2_amended_box_w :
    recPoints ⟨"BOX", some ⟨some ⟨1, 2⟩, some ⟨3, 4⟩, some ⟨5, 6⟩, some ⟨7, 8⟩⟩,
        some ⟨0, 0, 9, 9⟩, [], "t"⟩ =
      [pairStr 1 2, pairStr 3 4, pairStr 5 6, pairStr 7 8] :=
  (C2_amended_box _ ⟨some ⟨1, 2⟩, some ⟨3, 4⟩, some ⟨5, 6⟩, some ⟨7, 8⟩⟩
    ⟨1, 2⟩ ⟨3, 4⟩ ⟨5, 6⟩ ⟨7, 8⟩ ⟨0, 0, 9, 9⟩ 0 0 rfl).1 rfl rfl rfl rfl rfl

/-- Every month has at least one day. -/
theorem daysInMonth_pos (y m : Nat) : 1 ≤ daysInMonth y m := by
  unfold daysInMonth
  split
  · split <;> norm_num
  · split <;> norm_num

/-- Total days of a year's twelve months. -/
theorem monthDaysAcc_twelve (y : Nat) :
    monthDaysAcc y 12 = if isLeapYear y then 366 else 365 := by
  cases hl : isLeapYear y <;>
    norm_num [show (12 : Nat) = 11 + 1 from rfl, show (11 : Nat) = 10 + 1 from rfl,
      show (10 : Nat) = 9 + 1 from rfl, show (9 : Nat) = 8 + 1 from rfl,
      show (8 : Nat) = 7 + 1 from rfl, show (7 : Nat) = 6 + 1 from rfl,
      show (6 : Nat) = 5 + 1 from rfl, show (5 : Nat) = 4 + 1 from rfl,
      show (4 : Nat) = 3 + 1 from rfl, show (3 : Nat) = 2 + 1 from rfl,
      show (2 : Nat) = 1 + 1 from rfl, show (1 : Nat) = 0 + 1 from rfl,
      monthDaysAcc, daysInMonth, hl]

/-- A non-empty month range accumulates at least one day. -/
theorem monthDaysAcc_pos (y k : Nat) (hk : 1 ≤ k) : 1 ≤ monthDaysAcc y k := by
  cases k with
  | zero => omega
  | succ k2 =>
    rw [monthDaysAcc]
    have := daysInMonth_pos y (k2 + 1)
    omega

/-- One more year contributes its leap day to the leap count. -/
theorem leapsBefore_succ (n : Nat) :
    leapsBefore (n + 1) = leapsBefore n + (if isLeapYear (n + 1) then 1 else 0) := by
  simp only [leapsBefore, isLeapYear, Bool.or_eq_true, Bool.and_eq_true,
    decide_eq_true_eq, bne_iff_ne, ne_eq]
  split <;> omega

/-- Stepping back one day decrements the civil day count and preserves
date validity. -/
theorem prevDay_spec (dt : DT) (hv : validDT dt)
    (hne : ¬(dt.year = 1 ∧ dt.month = 1 ∧ dt.day = 1)) :
    daysFromCivil (prevDay dt) + 1 = daysFromCivil dt ∧ validDT (prevDay dt) := by
  obtain ⟨y, mo, d, hh, mi, ss⟩ := dt
  simp only [validDT] at hv
  obtain ⟨hy, hm1, hm2, hd1, hd2, hhh, hmin, hsec⟩ := hv
  by_cases hd : 1 < d
  · rw [show prevDay ⟨y, mo, d, hh, mi, ss⟩ = ⟨y, mo, d - 1, hh, mi, ss⟩ from by
      unfold prevDay; simp [hd]]
    constructor
    · show 365 * (y - 1) + leapsBefore (y - 1) + monthDaysAcc y (mo - 1) + (d - 1 - 1) + 1
        = 365 * (y - 1) + leapsBefore (y - 1) + monthDaysAcc y (mo - 1) + (d - 1)
      omega
    · exact ⟨hy, hm1, hm2, show 1 ≤ d - 1 by omega,
        show d - 1 ≤ daysInMonth y mo by omega, hhh, hmin, hsec⟩
  · have hd1' : d = 1 := by omega
    by_cases hm : 1 < mo
    · rw [show prevDay ⟨y, mo, d, hh, mi, ss⟩ =
          ⟨y, mo - 1, daysInMonth y (mo - 1), hh, mi, ss⟩ from by
        unfold prevDay; simp [hd, hm]]
      have hacc : monthDaysAcc y (mo - 1) =
          monthDaysAcc y (mo - 1 - 1) + daysInMonth y (mo - 1) := by
        conv_lhs => rw [show mo - 1 = (mo - 1 - 1) + 1 from by omega]
        rw [monthDaysAcc, show mo - 1 - 1 + 1 = mo - 1 from by omega]
      have hpos := daysInMonth_pos y (mo - 1)
      constructor
      · show 365 * (y - 1) + leapsBefore (y - 1) + monthDaysAcc y (mo - 1 - 1)
            + (daysInMonth y (mo - 1) - 1) + 1
          = 365 * (y - 1) + leapsBefore (y - 1) + monthDaysAcc y (mo - 1) + (d - 1)
        omega
      · exact ⟨hy, show 1 ≤ mo - 1 by omega, show mo - 1 ≤ 12 by omega,
          show 1 ≤ daysInMonth y (mo - 1) by omega,
          show daysInMonth y (mo - 1) ≤ daysInMonth y (mo - 1) from le_rfl,
          hhh, hmin, hsec⟩
    · have hm1' : mo = 1 := by omega
      have hy2 : 2 ≤ y := by
        by_contra hcon
        exact hne ⟨show y = 1 by omega, show mo = 1 by omega, show d = 1 by omega⟩
      rw [show prevDay ⟨y, mo, d, hh, mi, ss⟩ = ⟨y - 1, 12, 31, hh, mi, ss⟩ from by
        unfold prevDay; simp [hd, hm]]
      have f1 : monthDaysAcc (y - 1) 12 =
          monthDaysAcc (y - 1) 11 + daysInMonth (y - 1) 12 := by
        rw [show (12 : Nat) = 11 + 1 from rfl, monthDaysAcc]
      have f2 : daysInMonth (y - 1) 12 = 31 := by norm_num [daysInMonth]
      have f3 := monthDaysAcc_twelve (y - 1)
      have f4 : leapsBefore (y - 1) =
          leapsBefore (y - 1 - 1) + (if isLeapYear (y - 1) then 1 else 0) := by
        conv_lhs => rw [show y - 1 = (y - 1 - 1) + 1 from by omega]
        rw [leapsBefore_succ, show y - 1 - 1 + 1 = y - 1 from by omega]
      constructor
      · show 365 * (y - 1 - 1) + leapsBefore (y - 1 - 1) + monthDaysAcc (y - 1) (12 - 1)
            + (31 - 1) + 1
          = 365 * (y - 1) + leapsBefore (y - 1) + monthDaysAcc y (mo - 1) + (d - 1)
        rw [show (12 : Nat) - 1 = 11 from rfl, hm1', hd1',
          show (1 : Nat) - 1 = 0 from rfl, show monthDaysAcc y 0 = 0 from rfl]
        cases hleap : isLeapYear (y - 1) <;> simp [hleap] at f3 f4 <;> omega
      · exact ⟨show 1 ≤ y - 1 by omega, show 1 ≤ (12 : Nat) by norm_num,
          show (12 : Nat) ≤ 12 from le_rfl, show 1 ≤ (31 : Nat) by norm_num,
          show (31 : Nat) ≤ daysInMonth (y - 1) 12 from f2.ge, hhh, hmin, hsec⟩

/-- Only `0001-01-01` has civil day count zero. -/
theorem daysFromCivil_eq_zero (dt : DT) (hv : validDT dt) (h0 : daysFromCivil dt = 0) :
    dt.year = 1 ∧ dt.month = 1 ∧ dt.day = 1 := by
  obtain ⟨hy, hm1, hm2, hd1, hd2, -, -, -⟩ := hv
  unfold daysFromCivil at h0
  by_cases hm : dt.month = 1
  · refine ⟨by omega, hm, by omega⟩
  · have := monthDaysAcc_pos dt.year (dt.month - 1) (by omega)
    omega

/-- The branch equations of `subtract9h`. -/
theorem subtract9h_of_ge (dt : DT) (h : 32400 ≤ secondsOfDay dt) :
    subtract9h dt = some (withTime dt (secondsOfDay dt - 32400)) := by
  unfold subtract9h
  simp [h]

/-- The borrow branch of `subtract9h`. -/
theorem subtract9h_of_lt (dt : DT) (h1 : ¬ 32400 ≤ secondsOfDay dt)
    (h2 : ¬(dt.year = 1 ∧ dt.month = 1 ∧ dt.day = 1)) :
    subtract9h dt = some (withTime (prevDay dt) (secondsOfDay dt + 54000)) := by
  unfold subtract9h
  simp only [if_neg h1, if_neg h2]

/-- Subtracting nine hours from a valid datetime at least nine hours
after the epoch succeeds, stays valid, and moves the instant back by
exactly 32400 seconds. -/
theorem subtract9h_spec (dt : DT) (hv : validDT dt) (hi : 32400 ≤ toInstant dt) :
    ∃ r, subtract9h dt = some r ∧ validDT r ∧ toInstant r + 32400 = toInstant dt := by
  obtain ⟨y, mo, d, hh, mi, ss⟩ := dt
  have hvp := hv
  simp only [validDT] at hv
  obtain ⟨hy, hm1, hm2, hd1, hd2, hhh, hmin, hsec⟩ := hv
  have hsec9 : secondsOfDay ⟨y, mo, d, hh, mi, ss⟩ = hh * 3600 + mi * 60 + ss := rfl
  by_cases ht : 32400 ≤ hh * 3600 + mi * 60 + ss
  · refine ⟨withTime ⟨y, mo, d, hh, mi, ss⟩ (hh * 3600 + mi * 60 + ss - 32400), ?_, ?_, ?_⟩
    · rw [subtract9h_of_ge _ (by rw [hsec9]; exact ht), hsec9]
    · exact ⟨hy, hm1, hm2, hd1, hd2,
        show (hh * 3600 + mi * 60 + ss - 32400) / 3600 ≤ 23 by omega,
        show (hh * 3600 + mi * 60 + ss - 32400) % 3600 / 60 ≤ 59 by omega,
        show (hh * 3600 + mi * 60 + ss - 32400) % 60 ≤ 59 by omega⟩
    · show 86400 * (365 * (y - 1) + leapsBefore (y - 1) + monthDaysAcc y (mo - 1) + (d - 1))
          + ((hh * 3600 + mi * 60 + ss - 32400) / 3600 * 3600
            + (hh * 3600 + mi * 60 + ss - 32400) % 3600 / 60 * 60
            + (hh * 3600 + mi * 60 + ss - 32400) % 60) + 32400
        = 86400 * (365 * (y - 1) + leapsBefore (y - 1) + monthDaysAcc y (mo - 1) + (d - 1))
          + (hh * 3600 + mi * 60 + ss)
      omega
  · have hne : ¬(y = 1 ∧ mo = 1 ∧ d = 1) := by
      rintro ⟨h1, h2, h3⟩
      subst h1; subst h2; subst h3
      have hz : toInstant ⟨1, 1, 1, hh, mi, ss⟩ = hh * 3600 + mi * 60 + ss := by
        show 86400 * daysFromCivil ⟨1, 1, 1, hh, mi, ss⟩ + (hh * 3600 + mi * 60 + ss) = _
        rw [show daysFromCivil ⟨1, 1, 1, hh, mi, ss⟩ = 0 from by
          simp [daysFromCivil, leapsBefore, monthDaysAcc]]
        omega
      rw [hz] at hi
      omega
    obtain ⟨hdc, hvprev⟩ := prevDay_spec ⟨y, mo, d, hh, mi, ss⟩ hvp hne
    refine ⟨withTime (prevDay ⟨y, mo, d, hh, mi, ss⟩) (hh * 3600 + mi * 60 + ss + 54000),
      ?_, ?_, ?_⟩
    · rw [subtract9h_of_lt _ (by rw [hsec9]; exact ht) hne, hsec9]
    · obtain ⟨py, pm1, pm2, pd1, pd2, -, -, -⟩ := hvprev
      exact ⟨py, pm1, pm2, pd1, pd2,
        show (hh * 3600 + mi * 60 + ss + 54000) / 3600 ≤ 23 by omega,
        show (hh * 3600 + mi * 60 + ss + 54000) % 3600 / 60 ≤ 59 by omega,
        show (hh * 3600 + mi * 60 + ss + 54000) % 60 ≤ 59 by omega⟩
    · have hdays : daysFromCivil (withTime (prevDay ⟨y, mo, d, hh, mi, ss⟩)
          (hh * 3600 + mi * 60 + ss + 54000)) =
          daysFromCivil (prevDay ⟨y, mo, d, hh, mi, ss⟩) := rfl
      have hsecr : secondsOfDay (withTime (prevDay ⟨y, mo, d, hh, mi, ss⟩)
          (hh * 3600 + mi * 60 + ss + 54000)) =
          (hh * 3600 + mi * 60 + ss + 54000) / 3600 * 3600
            + (hh * 3600 + mi * 60 + ss + 54000) % 3600 / 60 * 60
            + (hh * 3600 + mi * 60 + ss + 54000) % 60 := rfl
      unfold toInstant
      rw [hdays, hsecr, hsec9]
      omega

/-- A successfully parsed field lies in its range. -/
theorem parseField2_bounds (lo hi : Nat) (l : List Char) (p : Nat × List Char)
    (h : parseField2 lo hi l = some p) : lo ≤ p.1 ∧ p.1 ≤ hi := by
  simp only [parseField2] at h
  split at h
  · split at h
    · simp only [Option.some.injEq] at h
      subst h
      simp_all
    · simp at h
  · simp at h

/-- A parsed datetime satisfies the `datetime` constructor's
constraints. -/
theorem strptimeWith_valid (sep : List Char → Option (List Char)) (l : List Char)
    (dt : DT) (h : strptimeWith sep l = some dt) : validDT dt := by
  unfold strptimeWith at h
  simp only [Option.bind_eq_some] at h
  obtain ⟨py, hpy, r2, hr2, pm, hpm, r4, hr4, pd, hpd, r6, hr6,
    ph, hph, r8, hr8, pmi, hpmi, r10, hr10, ps, hps, h⟩ := h
  split at h
  · simp only [Option.some.injEq] at h
    subst h
    rename_i hcond
    obtain ⟨-, hy, hdm, hss⟩ := hcond
    obtain ⟨hm1, hm2⟩ := parseField2_bounds 1 12 r2 pm hpm
    obtain ⟨hd1, -⟩ := parseField2_bounds 1 31 r4 pd hpd
    obtain ⟨-, hh2⟩ := parseField2_bounds 0 23 r6 ph hph
    obtain ⟨-, hmi2⟩ := parseField2_bounds 0 59 r8 pmi hpmi
    exact ⟨hy, hm1, hm2, hd1, hdm, hh2, hmi2, hss⟩
  · simp at h

/-- The two formats are mutually exclusive: the separator position of a
string parsed by the `T` format holds `T` or `t`, never whitespace. -/
theorem strptime_T_space_disjoint (s : String) (dt : DT)
    (h : strptime_T s = some dt) : strptime_space s = none := by
  unfold strptime_T strptimeWith at h
  simp only [Option.bind_eq_some] at h
  obtain ⟨py, hpy, r2, hr2, pm, hpm, r4, hr4, pd, hpd, r6, hr6, -⟩ := h
  obtain ⟨x, xs, hxeq, hx⟩ : ∃ x xs, pd.2 = x :: xs ∧ (x = 'T' ∨ x = 't') := by
    rcases hx2 : pd.2 with _ | ⟨x, xs⟩
    · rw [hx2] at hr6
      simp [sepT] at hr6
    · rw [hx2] at hr6
      simp only [sepT] at hr6
      split at hr6
      · exact ⟨x, xs, rfl, by assumption⟩
      · simp at hr6
  have hsp : sepSpaces pd.2 = none := by
    rw [hxeq]
    simp only [sepSpaces]
    rw [if_neg]
    rcases hx with hx | hx <;> subst hx <;> simp [isPySpace]
  unfold strptime_space strptimeWith
  simp [hpy, hr2, hpm, hr4, hpd, hsp]

/-- The formatted output always carries the `+09:00` suffix. -/
theorem strftime_data_suffix (r : DT) :
    ∃ pre, (strftime_out r).data = pre ++ "+09:00".data := by
  refine ⟨(Nat.repr r.year).data ++ '-' :: pad2 r.month ++ '-' :: pad2 r.day
    ++ ' ' :: pad2 r.hour ++ ':' :: pad2 r.minute ++ ':' :: pad2 r.second, ?_⟩
  show (Nat.repr r.year).data ++ '-' :: pad2 r.month ++ '-' :: pad2 r.day
      ++ ' ' :: pad2 r.hour ++ ':' :: pad2 r.minute ++ ':' :: pad2 r.second
      ++ "+09:00".data
    = _
  simp [List.append_assoc, List.cons_append]

/-- C6 amended: for a string parseable by either format whose instant
is at least nine hours after `0001-01-01 00:00:00`, the function
returns the instant nine hours earlier formatted
`%Y-%m-%d %H:%M:%S+09:00`; for a parseable string within nine hours of
the epoch the subtraction overflows and the input is returned
unchanged; for a string parseable by neither format the input is
returned unchanged (and the embedding is total: nothing is raised). -/
theorem C6_amended_timezone (s : String) (dt : DT) :
    ((strptime_T s = some dt ∨ (strptime_T s = none ∧ strptime_space s = some dt)) →
      (32400 ≤ toInstant dt →
        ∃ r, subtract9h dt = some r ∧ validDT r ∧ toInstant r + 32400 = toInstant dt ∧
          add_timezone_to_datetime s = strftime_out r ∧
          ∃ pre, (strftime_out r).data = pre ++ "+09:00".data) ∧
      (toInstant dt < 32400 → add_timezone_to_datetime s = s)) ∧
    (strptime_T s = none → strptime_space s = none → add_timezone_to_datetime s = s) := by
  constructor
  · intro hp
    have hv : validDT dt := by
      rcases hp with h | ⟨-, h⟩ <;> exact strptimeWith_valid _ _ _ h
    constructor
    · intro hi
      obtain ⟨r, hr, hvr, hinst⟩ := subtract9h_spec dt hv hi
      refine ⟨r, hr, hvr, hinst, ?_, strftime_data_suffix r⟩
      unfold add_timezone_to_datetime
      rcases hp with h | ⟨h1, h2⟩
      · simp [h, hr]
      · simp [h1, h2, hr]
    · intro hlt
      have hnone : subtract9h dt = none := by
        have hd0 : daysFromCivil dt = 0 := by
          unfold toInstant at hlt
          omega
        obtain ⟨h1, h2, h3⟩ := daysFromCivil_eq_zero dt hv hd0
        have ht : secondsOfDay dt < 32400 := by
          unfold toInstant at hlt
          omega
        have hc : dt.year = 1 ∧ dt.month = 1 ∧ dt.day = 1 := ⟨h1, h2, h3⟩
        unfold subtract9h
        simp only [if_neg (by omega : ¬ 32400 ≤ secondsOfDay dt)]
        rw [if_pos hc]
      unfold add_timezone_to_datetime
      rcases hp with h | ⟨h1, h2⟩
      · have hsp := strptime_T_space_disjoint s dt h
        simp [h, hnone, hsp]
      · simp [h1, h2, hnone]
  · intro h1 h2
    unfold add_timezone_to_datetime
    simp [h1, h2]

/-- C6 witness at `2024-01-01T03:00:00`, whose conversion crosses a
year boundary. -/
theorem C6_amended_timezone_w :
    add_timezone_to_datetime "2024-01-01T03:00:00" =
      strftime_out ⟨2023, 12, 31, 18, 0, 0⟩ ∧
    toInstant ⟨2023, 12, 31, 18, 0, 0⟩ + 32400 = toInstant ⟨2024, 1, 1, 3, 0, 0⟩ ∧
    validDT ⟨2023, 12, 31, 18, 0, 0⟩ ∧
    add_timezone_to_datetime "2024-01-01T03:00:00" = "2023-12-31 18:00:00+09:00" := by
  obtain ⟨r, hr, hvr, hinst, ha, -⟩ :=
    ((C6_amended_timezone "2024-01-01T03:00:00" ⟨2024, 1, 1, 3, 0, 0⟩).1
      (Or.inl (by decide))).1 (by decide)
  have hre : r = ⟨2023, 12, 31, 18, 0, 0⟩ := by
    rw [show subtract9h ⟨2024, 1, 1, 3, 0, 0⟩ = some ⟨2023, 12, 31, 18, 0, 0⟩ from by
      decide] at hr
    exact (Option.some.inj hr).symm
  subst hre
  exact ⟨ha, hinst, hvr, by decide⟩

end CrowdHMG
